import Mathlib

set_option maxHeartbeats 1000000

namespace SeedrSync

/-- One entry of the files array returned by seedr.list_contents: its
name and its folder_file_id (the source converts it with int(...)). -/
structure FileEntry where
  name : String
  folder_file_id : Int
deriving DecidableEq

/-- One entry of the folders array returned by seedr.list_contents: its
numeric id and its name. -/
structure FolderEntry where
  id : Int
  name : String
deriving DecidableEq

/-- The shape of a seedr.list_contents response: a files array and a
folders array. -/
structure Listing where
  files : List FileEntry
  folders : List FolderEntry
deriving DecidableEq

mutual
/-- The remote seedr store as observed through list_contents calls.
A node carries the direct files and the direct subfolders of a folder;
bad models a folder whose list_contents call raises an exception with
the given message. -/
inductive RTree : Type where
  | bad : String → RTree
  | node : List FileEntry → RForest → RTree
/-- The list of direct subfolders of a folder: each carries its
FolderEntry (id and name) together with its own subtree. -/
inductive RForest : Type where
  | nil : RForest
  | cons : FolderEntry → RTree → RForest → RForest
end

/-- The folder entries of a forest, in order: this is the folders array
that list_contents reports for the enclosing folder. -/
def RForest.entries : RForest → List FolderEntry
  | .nil => []
  | .cons e _ rest => e :: rest.entries

/-- The result of calling seedr.list_contents on a folder: the files and
folders arrays, or the raised exception for a bad folder. -/
def RTree.listingOf : RTree → Except String Listing
  | .bad e => .error e
  | .node fs sub => .ok ⟨fs, sub.entries⟩

/-- The File dataclass of the source: api handle is implicit, the name,
the relative path (Path modelled as the list of its components, joinpath
as list append), and the numeric id. -/
structure File where
  name : String
  path : List String
  id : Int
deriving DecidableEq

mutual
/-- get_all_files of the source: list the folder, emit one File per
entry of the files array with path current_path joined with the name,
then recurse into each subfolder with current_path joined with the
subfolder name, appending the recursive results in order. A raising
list_contents call propagates as an error. -/
def get_all_files : RTree → List String → Except String (List File)
  | .bad e, _ => .error e
  | .node fs sub, current_path =>
      match get_all_files_forest sub current_path with
      | .error e => .error e
      | .ok rest =>
          .ok (fs.map (fun item =>
            File.mk item.name (current_path ++ [item.name]) item.folder_file_id) ++ rest)
/-- The for-loop of get_all_files over the folders array: recurse into
each subfolder in order and concatenate the results; the first raising
recursive call propagates. -/
def get_all_files_forest : RForest → List String → Except String (List File)
  | .nil, _ => .ok []
  | .cons entry t rest, current_path =>
      match get_all_files t (current_path ++ [entry.name]) with
      | .error e => .error e
      | .ok fs =>
          match get_all_files_forest rest current_path with
          | .error e => .error e
          | .ok more => .ok (fs ++ more)
end

mutual
/-- Every file occurrence of a tree together with the chain of ancestor
folder names leading to it from the root of that tree, in depth-first,
files-before-subfolders order. This is a direct observation of the tree
data model, used to state what the lister returns. -/
def RTree.fileOccs : RTree → List (List String × FileEntry)
  | .bad _ => []
  | .node fs sub => fs.map (fun fe => ([], fe)) ++ sub.fileOccs
/-- File occurrences of a forest: occurrences of each subtree prefixed
with that subfolder name, concatenated in order. -/
def RForest.fileOccs : RForest → List (List String × FileEntry)
  | .nil => []
  | .cons e t rest =>
      (t.fileOccs.map (fun q => (e.name :: q.1, q.2))) ++ rest.fileOccs
end

/-- The File a file occurrence gives rise to when the traversal starts
from prefix p: the path is p joined with the ancestor chain joined with
the file name. -/
def occFile (p : List String) (q : List String × FileEntry) : File :=
  File.mk q.2.name (p ++ q.1 ++ [q.2.name]) q.2.folder_file_id

mutual
theorem get_all_files_eq_fileOccs (t : RTree) (p : List String) (l : List File)
    (h : get_all_files t p = .ok l) : l = t.fileOccs.map (occFile p) := by
  cases t with
  | bad e => simp [get_all_files] at h
  | node fs sub =>
    cases hf : get_all_files_forest sub p with
    | error e => rw [get_all_files, hf] at h; cases h
    | ok rest =>
      rw [get_all_files, hf] at h
      cases h
      have ih := get_all_files_forest_eq_fileOccs sub p rest hf
      subst ih
      simp [RTree.fileOccs, occFile, List.map_map]
theorem get_all_files_forest_eq_fileOccs (f : RForest) (p : List String) (l : List File)
    (h : get_all_files_forest f p = .ok l) : l = f.fileOccs.map (occFile p) := by
  cases f with
  | nil => rw [get_all_files_forest] at h; cases h; simp [RForest.fileOccs]
  | cons e t rest =>
    cases ht : get_all_files t (p ++ [e.name]) with
    | error er => rw [get_all_files_forest, ht] at h; cases h
    | ok fs =>
      cases hr : get_all_files_forest rest p with
      | error er => rw [get_all_files_forest, ht, hr] at h; cases h
      | ok more =>
        rw [get_all_files_forest, ht, hr] at h
        cases h
        have ih1 := get_all_files_eq_fileOccs t (p ++ [e.name]) fs ht
        have ih2 := get_all_files_forest_eq_fileOccs rest p more hr
        subst ih1; subst ih2
        simp [RForest.fileOccs, occFile, List.map_map]
end

/-- The response of api.fetch_file: a dict holding at least the url key. -/
structure FileDetails where
  url : String
deriving DecidableEq

/-- An HTTP response as the download loop observes it: the status code,
and the streamed body, where an error stands for a transport-level fault
(timeout, connection reset) raised while reading chunks. -/
structure HttpResp where
  status : Nat
  body : Except String (List Nat)

/-- The network environment of one run: what api.fetch_file returns for
a file id (or the exception it raises), and what the HTTP GET of a url
returns (or the exception it raises). -/
structure Net where
  fetch_file : Int → Except String FileDetails
  http_get : String → Except String HttpResp

/-- The dynamically added attributes of a File object. In the source
they are absent until assigned; absence is modelled as none. -/
structure FileState where
  download_was_successful : Option Bool := none
  fileDetailsCache : Option FileDetails := none
deriving DecidableEq

/-- A freshly constructed File object: neither attribute has been set. -/
def initFileState : FileState := {}

/-- Observable remote calls of a run, in the order they are issued. -/
inductive Event where
  | outcomeRecorded (fileId : Int) (success : Bool)
  | deleteFileCalled (fileId : Int)
  | deleteFolderCalled (folderId : Int)
deriving DecidableEq, Repr

/-- File.file_details of the source: if the _file_details attribute is
present return it, otherwise call api.fetch_file on the file id. -/
def File.file_details (net : Net) (f : File) (st : FileState) : Except String FileDetails :=
  match st.fileDetailsCache with
  | some d => .ok d
  | none => net.fetch_file f.id

/-- File.download of the source: resolve the details (a raising
fetch_file propagates), GET the url (a raising GET propagates); on
status 200 stream the body (a transport fault propagates) and set
_download_was_successful to True; on any other status print a failure
message and set _download_was_successful to False. The event list
records the outcome assignment. -/
def File.download (net : Net) (f : File) (st : FileState) :
    List Event × Except String FileState :=
  match File.file_details net f st with
  | .error e => ([], .error e)
  | .ok details =>
    match net.http_get details.url with
    | .error e => ([], .error e)
    | .ok resp =>
      if resp.status == 200 then
        match resp.body with
        | .error e => ([], .error e)
        | .ok _ =>
            ([Event.outcomeRecorded f.id true],
             .ok { st with download_was_successful := some true })
      else
        ([Event.outcomeRecorded f.id false],
         .ok { st with download_was_successful := some false })

/-- File.get_was_download_successful of the source: None when the
_download_was_successful attribute was never assigned, else its value. -/
def File.get_was_download_successful (st : FileState) : Option Bool :=
  st.download_was_successful

/-- Python truthiness of the value returned by
get_was_download_successful: None and False are falsy. -/
def pyTruthy : Option Bool → Bool
  | none => false
  | some b => b

/-- Which delete_item calls raise in this run: the exception message, if
any, for a file delete of a given id and for a folder delete of a given
id. -/
structure DeleteOracle where
  fileErr : Int → Option String
  folderErr : Int → Option String

mutual
/-- Effect on the remote store of api.delete_item(id, file): the file
with that id disappears from every listing. -/
def RTree.deleteFile (fid : Int) : RTree → RTree
  | .bad e => .bad e
  | .node fs sub => .node (fs.filter (fun fe => fe.folder_file_id != fid)) (sub.deleteFile fid)
/-- deleteFile on each subtree of a forest. -/
def RForest.deleteFile (fid : Int) : RForest → RForest
  | .nil => .nil
  | .cons e t rest => .cons e (t.deleteFile fid) (rest.deleteFile fid)
end

mutual
/-- Effect on the remote store of api.delete_item(id, folder): every
folder with that id disappears, with its whole subtree. -/
def RTree.deleteFolder (fid : Int) : RTree → RTree
  | .bad e => .bad e
  | .node fs sub => .node fs (sub.deleteFolder fid)
/-- deleteFolder on a forest: drop matching entries, recurse elsewhere. -/
def RForest.deleteFolder (fid : Int) : RForest → RForest
  | .nil => .nil
  | .cons e t rest =>
      if e.id == fid then rest.deleteFolder fid
      else .cons e (t.deleteFolder fid) (rest.deleteFolder fid)
end

mutual
/-- Locate the folder with a given id in the store, depth first, as the
remote side of list_contents(folder_id) does for a non-root id. -/
def RTree.findFolder (fid : Int) : RTree → Option RTree
  | .bad _ => none
  | .node _ sub => sub.findFolder fid
/-- findFolder over a forest: first matching entry, else inside that
entry, else the rest. -/
def RForest.findFolder (fid : Int) : RForest → Option RTree
  | .nil => none
  | .cons e t rest =>
      if e.id == fid then some t
      else
        match t.findFolder fid with
        | some r => some r
        | none => rest.findFolder fid
end

/-- seedr.list_contents for a non-root folder id on the current store:
the listing of the located folder, or an error when no such folder
exists. -/
def list_contents_id (t : RTree) (fid : Int) : Except String Listing :=
  match t.findFolder fid with
  | some sub => sub.listingOf
  | none => .error "no such folder"

/-- is_folder_empty of the source: list the folder and report whether
both the files array and the folders array have length zero. -/
def is_folder_empty (t : RTree) (fid : Int) : Except String Bool :=
  match list_contents_id t fid with
  | .error e => .error e
  | .ok r => .ok (r.files.length == 0 && r.folders.length == 0)

/-- The api.delete_item(id, file) call: the call is issued (recorded as
an event), then either the oracle makes it raise or the store is
updated. -/
def delete_item_file (orc : DeleteOracle) (fid : Int) (t : RTree) :
    List Event × Except String RTree :=
  ([Event.deleteFileCalled fid],
    match orc.fileErr fid with
    | some e => .error e
    | none => .ok (t.deleteFile fid))

/-- The api.delete_item(id, folder) call, analogous to the file case. -/
def delete_item_folder (orc : DeleteOracle) (fid : Int) (t : RTree) :
    List Event × Except String RTree :=
  ([Event.deleteFolderCalled fid],
    match orc.folderErr fid with
    | some e => .error e
    | none => .ok (t.deleteFolder fid))

/-- delete_successful_file of the source: delete the file only when
get_was_download_successful returns a truthy value; a raising delete
propagates (there is no try/except around it). -/
def delete_successful_file (orc : DeleteOracle) (f : File) (st : FileState) (t : RTree) :
    List Event × Except String RTree :=
  if pyTruthy (File.get_was_download_successful st) then
    delete_item_file orc f.id t
  else
    ([], .ok t)

/-- The download phase of main: one process_file per File, each calling
File.download on a freshly constructed File object; the first raised
exception propagates out of the gather and the phase yields an error,
otherwise the per-file states are returned in order. -/
def download_phase (net : Net) : List File → List Event × Except String (List (File × FileState))
  | [] => ([], .ok [])
  | f :: rest =>
      match File.download net f initFileState with
      | (evs, .error e) => (evs, .error e)
      | (evs, .ok st) =>
          match download_phase net rest with
          | (evs2, .error e) => (evs ++ evs2, .error e)
          | (evs2, .ok sts) => (evs ++ evs2, .ok ((f, st) :: sts))

/-- The file-deletion phase of main: one delete_successful_file per
task; the first raised exception propagates out of the gather,
otherwise the mutated store is returned. -/
def delete_phase (orc : DeleteOracle) :
    List (File × FileState) → RTree → List Event × Except String RTree
  | [], t => ([], .ok t)
  | (f, st) :: rest, t =>
      match delete_successful_file orc f st t with
      | (evs, .error e) => (evs, .error e)
      | (evs, .ok t1) =>
          match delete_phase orc rest t1 with
          | (evs2, r) => (evs ++ evs2, r)

/-- The for-loop of delete_empty_folders over the folders array of the
fresh root listing: re-check each folder with a fresh is_folder_empty
on the current store and delete it when empty; any raised exception
(listing or delete) propagates and stops the loop. -/
def prune_loop (orc : DeleteOracle) : List FolderEntry → RTree → List Event × Except String RTree
  | [], t => ([], .ok t)
  | fe :: rest, t =>
      match is_folder_empty t fe.id with
      | .error e => ([], .error e)
      | .ok false => prune_loop orc rest t
      | .ok true =>
          match delete_item_folder orc fe.id t with
          | (evs, .error e) => (evs, .error e)
          | (evs, .ok t1) =>
              match prune_loop orc rest t1 with
              | (evs2, r) => (evs ++ evs2, r)

/-- delete_empty_folders of the source: take a fresh listing of root on
the current store, then run the prune loop over its folders array. -/
def delete_empty_folders (orc : DeleteOracle) (t : RTree) : List Event × Except String RTree :=
  match t.listingOf with
  | .error e => ([], .error e)
  | .ok listing => prune_loop orc listing.folders t

/-- main of the source, after login: get_all_files from root, gather
all process_file downloads, gather all delete_successful_file calls,
then delete_empty_folders. Any uncaught exception propagates and main
raises instead of returning; the trace lists the remote calls issued. -/
def main (net : Net) (orc : DeleteOracle) (t : RTree) :
    List Event × Except String (List (File × FileState) × RTree) :=
  match get_all_files t [] with
  | .error e => ([], .error e)
  | .ok files =>
    match download_phase net files with
    | (evs1, .error e) => (evs1, .error e)
    | (evs1, .ok states) =>
      match delete_phase orc states t with
      | (evs2, .error e) => (evs1 ++ evs2, .error e)
      | (evs2, .ok t1) =>
        match delete_empty_folders orc t1 with
        | (evs3, .error e) => (evs1 ++ evs2 ++ evs3, .error e)
        | (evs3, .ok t2) => (evs1 ++ evs2 ++ evs3, .ok (states, t2))

/-- The environment-variable surface of main: os.environ.get on the two
names the code actually reads, passed to Login. An absent name yields
None. -/
def read_credentials (env : String → Option String) : Option String × Option String :=
  (env "SEEDRCC_EMAIL", env "SEEDRCC_PASSWORD")

/-- Concrete fixture: the root file of the scenario of the spec. -/
def feRoot : FileEntry := ⟨"root.txt", 1⟩

/-- Concrete fixture: a file inside the docs folder. -/
def feB : FileEntry := ⟨"b.pdf", 2⟩

/-- Concrete fixture: the docs folder entry. -/
def docsEntry : FolderEntry := ⟨10, "docs"⟩

/-- Concrete fixture: root holds root.txt and the docs folder, which
holds b.pdf. -/
def tree0 : RTree := .node [feRoot] (.cons docsEntry (.node [feB] .nil) .nil)

/-- Concrete fixture: root holds the single file root.txt. -/
def tree1 : RTree := .node [feRoot] .nil

/-- Concrete fixture: a network where every fetch_file and every GET
succeeds with status 200. -/
def netOK : Net := ⟨fun i => .ok ⟨String.append "u" (toString i)⟩, fun _ => .ok ⟨200, .ok [7]⟩⟩

/-- Concrete fixture: no delete_item call raises. -/
def orcOK : DeleteOracle := ⟨fun _ => none, fun _ => none⟩

/-- Concrete fixture: every file delete_item call raises. -/
def orcBadFile : DeleteOracle := ⟨fun _ => some "delete raised", fun _ => none⟩

/-- Concrete fixture: a network where every fetch_file call raises. -/
def netResolveErr : Net := ⟨fun _ => .error "resolve raised", fun _ => .ok ⟨200, .ok []⟩⟩

/-- A download that returns normally set the outcome attribute exactly
once and recorded exactly that one outcome event. -/
theorem download_ok_cases (net : Net) (f : File) (st : FileState) (evs : List Event)
    (st2 : FileState) (h : File.download net f st = (evs, .ok st2)) :
    ∃ b : Bool, st2 = { st with download_was_successful := some b } ∧
      evs = [Event.outcomeRecorded f.id b] := by
  unfold File.download at h
  cases hd : File.file_details net f st with
  | error e => simp [hd] at h
  | ok details =>
    simp only [hd] at h
    cases hg : net.http_get details.url with
    | error e => simp [hg] at h
    | ok resp =>
      simp only [hg] at h
      by_cases hs : (resp.status == 200) = true
      · rw [if_pos hs] at h
        cases hb : resp.body with
        | error e => simp [hb] at h
        | ok chunks =>
          simp only [hb] at h
          exact ⟨true, by cases h; exact ⟨rfl, rfl⟩⟩
      · rw [if_neg hs] at h
        exact ⟨false, by cases h; exact ⟨rfl, rfl⟩⟩

/-- A download phase that returns normally produced one fresh state per
task, each holding exactly one recorded outcome, and its event list is
exactly one outcome event per task in task order. -/
theorem download_phase_ok_spec (net : Net) :
    ∀ (files : List File) (evs : List Event) (states : List (File × FileState)),
      download_phase net files = (evs, .ok states) →
      states.map Prod.fst = files ∧
      (∀ p ∈ states, ∃ b : Bool,
        Prod.snd p = { initFileState with download_was_successful := some b }) ∧
      evs = states.map (fun p =>
        Event.outcomeRecorded (Prod.fst p).id (((Prod.snd p).download_was_successful).getD false))
  | [], evs, states, h => by
      rw [download_phase] at h
      cases h
      exact ⟨rfl, by simp, rfl⟩
  | f :: rest, evs, states, h => by
      rw [download_phase] at h
      cases hdl : File.download net f initFileState with
      | mk evs1 r1 =>
        simp only [hdl] at h
        cases r1 with
        | error e => simp at h
        | ok st =>
          cases hrest : download_phase net rest with
          | mk evs2 r2 =>
            simp only [hrest] at h
            cases r2 with
            | error e => simp at h
            | ok sts =>
              simp only at h
              cases h
              obtain ⟨hmap, hall, hevs⟩ := download_phase_ok_spec net rest evs2 sts hrest
              obtain ⟨b, hb, hevs1⟩ := download_ok_cases net f initFileState evs1 st hdl
              refine ⟨by simp [hmap], ?_, ?_⟩
              · intro p hp
                rcases List.mem_cons.mp hp with hp | hp
                · exact ⟨b, by rw [hp, hb]⟩
                · exact hall p hp
              · subst hevs1 hevs hb
                simp

/-- The calls issued by delete_successful_file: exactly one file delete
when the recorded outcome is Succeeded, nothing otherwise. -/
theorem delete_successful_file_trace (orc : DeleteOracle) (f : File) (st : FileState)
    (t : RTree) :
    (delete_successful_file orc f st t).1 =
      if File.get_was_download_successful st = some true
      then [Event.deleteFileCalled f.id] else [] := by
  unfold delete_successful_file
  cases h : st.download_was_successful with
  | none => simp [File.get_was_download_successful, pyTruthy, h]
  | some b =>
      cases b <;>
        simp [File.get_was_download_successful, pyTruthy, h, delete_item_file]

/-- Every event issued by the file-deletion phase is a file delete. -/
theorem delete_phase_events (orc : DeleteOracle) :
    ∀ (states : List (File × FileState)) (t : RTree) (evs : List Event)
      (r : Except String RTree),
      delete_phase orc states t = (evs, r) →
      ∀ ev ∈ evs, ∃ i, ev = Event.deleteFileCalled i
  | [], t, evs, r, h => by
      rw [delete_phase] at h
      cases h
      simp
  | (f, st) :: rest, t, evs, r, h => by
      rw [delete_phase] at h
      cases hds : delete_successful_file orc f st t with
      | mk evs1 r1 =>
        have hevs1 : ∀ ev ∈ evs1, ∃ i, ev = Event.deleteFileCalled i := by
          intro ev hev
          have := delete_successful_file_trace orc f st t
          rw [hds] at this
          simp only at this
          rw [this] at hev
          by_cases hc : File.get_was_download_successful st = some true
          · rw [if_pos hc] at hev
            simp at hev
            exact ⟨f.id, hev⟩
          · rw [if_neg hc] at hev
            simp at hev
        simp only [hds] at h
        cases r1 with
        | error e =>
          cases h
          exact hevs1
        | ok t1 =>
          cases hrest : delete_phase orc rest t1 with
          | mk evs2 r2 =>
            simp only [hrest] at h
            cases h
            intro ev hev
            rcases List.mem_append.mp hev with hev | hev
            · exact hevs1 ev hev
            · exact delete_phase_events orc rest t1 _ _ hrest ev hev

/-- Every event issued by the prune loop is a folder delete. -/
theorem prune_loop_events (orc : DeleteOracle) :
    ∀ (entries : List FolderEntry) (t : RTree) (evs : List Event)
      (r : Except String RTree),
      prune_loop orc entries t = (evs, r) →
      ∀ ev ∈ evs, ∃ i, ev = Event.deleteFolderCalled i
  | [], t, evs, r, h => by
      rw [prune_loop] at h
      cases h
      simp
  | fe :: rest, t, evs, r, h => by
      rw [prune_loop] at h
      cases hemp : is_folder_empty t fe.id with
      | error e =>
        simp only [hemp] at h
        cases h
        simp
      | ok b =>
        simp only [hemp] at h
        cases b with
        | false => exact prune_loop_events orc rest t evs r h
        | true =>
          simp only [delete_item_folder] at h
          cases horc : orc.folderErr fe.id with
          | some e =>
            simp only [horc] at h
            cases h
            intro ev hev
            simp at hev
            exact ⟨fe.id, hev⟩
          | none =>
            simp only [horc] at h
            cases hrest : prune_loop orc rest (t.deleteFolder fe.id) with
            | mk evs2 r2 =>
              simp only [hrest] at h
              cases h
              intro ev hev
              rcases List.mem_append.mp hev with hev | hev
              · simp at hev
                exact ⟨fe.id, hev⟩
              · exact prune_loop_events orc rest (t.deleteFolder fe.id) _ _ hrest ev hev

/-- Every event issued by delete_empty_folders is a folder delete. -/
theorem delete_empty_folders_events (orc : DeleteOracle) (t : RTree) (evs : List Event)
    (r : Except String RTree) (h : delete_empty_folders orc t = (evs, r)) :
    ∀ ev ∈ evs, ∃ i, ev = Event.deleteFolderCalled i := by
  unfold delete_empty_folders at h
  cases hl : t.listingOf with
  | error e =>
    simp only [hl] at h
    cases h
    simp
  | ok listing =>
    simp only [hl] at h
    exact prune_loop_events orc listing.folders t evs r h

/-- A run of main that returns normally decomposes into its four
phases, with the trace being the concatenation of the phase traces. -/
theorem main_ok_decompose (net : Net) (orc : DeleteOracle) (t : RTree)
    (trace : List Event) (states : List (File × FileState)) (t2 : RTree)
    (h : main net orc t = (trace, .ok (states, t2))) :
    ∃ files evs1 evs2 evs3 t1,
      get_all_files t [] = .ok files ∧
      download_phase net files = (evs1, .ok states) ∧
      delete_phase orc states t = (evs2, .ok t1) ∧
      delete_empty_folders orc t1 = (evs3, .ok t2) ∧
      trace = evs1 ++ evs2 ++ evs3 := by
  unfold main at h
  cases hg : get_all_files t [] with
  | error e => simp [hg] at h
  | ok files =>
    simp only [hg] at h
    cases hd : download_phase net files with
    | mk evs1 r1 =>
      simp only [hd] at h
      cases r1 with
      | error e => simp at h
      | ok states1 =>
        cases hdel : delete_phase orc states1 t with
        | mk evs2 r2 =>
          simp only [hdel] at h
          cases r2 with
          | error e => simp at h
          | ok t1 =>
            cases hp : delete_empty_folders orc t1 with
            | mk evs3 r3 =>
              simp only [hp] at h
              cases r3 with
              | error e => simp at h
              | ok t2x =>
                simp only at h
                cases h
                refine ⟨files, evs1, evs2, evs3, t1, ?_, ?_, ?_, ?_, ?_⟩ <;>
                  first | rfl | assumption

/-- Concrete fixture: the FileTask the lister produces for root.txt. -/
def fileRoot : File := ⟨"root.txt", ["root.txt"], 1⟩

/-- Concrete fixture: a File object whose download succeeded. -/
def stTrue : FileState := { download_was_successful := some true }

/-- Concrete fixture: root holds two files and no folders. -/
def tree2 : RTree := .node [feRoot, feB] .nil

/-- Concrete fixture: listing the docs subfolder raises. -/
def treeBad : RTree := .node [feRoot] (.cons docsEntry (.bad "listing raised") .nil)

/-- Concrete fixture: a network whose GET always answers status 404. -/
def net404 : Net := ⟨fun _ => .ok ⟨"u"⟩, fun _ => .ok ⟨404, .ok []⟩⟩

/-- C1: delete_successful_file issues the remote delete of its file iff
the recorded DownloadOutcome is Succeeded (True); a Failed (False) or
never-attempted (None) outcome issues no remote call at all. -/
theorem C1_delete_iff_succeeded (orc : DeleteOracle) (f : File) (st : FileState) (t : RTree) :
    (Event.deleteFileCalled f.id ∈ (delete_successful_file orc f st t).1 ↔
      File.get_was_download_successful st = some true) ∧
    (delete_successful_file orc f st t).1 =
      (if File.get_was_download_successful st = some true
       then [Event.deleteFileCalled f.id] else []) := by
  have htr := delete_successful_file_trace orc f st t
  refine ⟨?_, htr⟩
  rw [htr]
  by_cases hc : File.get_was_download_successful st = some true
  · simp [hc]
  · simp [hc]

/-- Witness for C1: with a Succeeded outcome the delete is issued. -/
theorem C1_witness :
    Event.deleteFileCalled 1 ∈ (delete_successful_file orcOK fileRoot stTrue tree1).1 :=
  (C1_delete_iff_succeeded orcOK fileRoot stTrue tree1).1.mpr rfl

/-- C2 fails on the code: delete_successful_file has no try/except, so
a raising delete_item call propagates out of the gather and main raises
instead of reaching Done. Concrete run: one file whose download
succeeded and whose remote delete raises. -/
theorem C2_counterexample :
    (main netOK orcBadFile tree1).2 = .error "delete raised" := rfl

/-- C2 amended: an error raised by a remote file-deletion call, or by a
folder-deletion call during pruning, is not caught anywhere: it
propagates and aborts the run, so main raises instead of reaching Done
(the run reaches Done only when every issued deletion call returns). -/
theorem C2_amended_deletion_error_aborts (net : Net) (orc : DeleteOracle) (t : RTree)
    (files : List File) (states : List (File × FileState)) (evs1 evs2 : List Event)
    (h1 : get_all_files t [] = .ok files)
    (h2 : download_phase net files = (evs1, .ok states)) :
    (∀ e, delete_phase orc states t = (evs2, .error e) →
      main net orc t = (evs1 ++ evs2, .error e)) ∧
    (∀ t1 evs3 e, delete_phase orc states t = (evs2, .ok t1) →
      delete_empty_folders orc t1 = (evs3, .error e) →
      main net orc t = (evs1 ++ evs2 ++ evs3, .error e)) := by
  constructor
  · intro e h3
    unfold main
    simp only [h1, h2, h3]
  · intro t1 evs3 e h3 h4
    unfold main
    simp only [h1, h2, h3, h4]

/-- Witness for the amended C2 at the concrete aborting run. -/
theorem C2_witness :
    main netOK orcBadFile tree1 =
      ([Event.outcomeRecorded 1 true] ++ [Event.deleteFileCalled 1], .error "delete raised") :=
  (C2_amended_deletion_error_aborts netOK orcBadFile tree1 [fileRoot] [(fileRoot, stTrue)]
      [Event.outcomeRecorded 1 true] [Event.deleteFileCalled 1] rfl rfl).1 "delete raised" rfl

/-- C3 fails on the code: an error raised while resolving the fetch url
propagates out of File.download: no Failed outcome is recorded (the
trace is empty) and the whole batch aborts; here a second pending task
is never attempted. -/
theorem C3_counterexample :
    File.download netResolveErr fileRoot initFileState = ([], .error "resolve raised") ∧
    main netResolveErr orcOK tree2 = ([], .error "resolve raised") :=
  ⟨rfl, rfl⟩

/-- C3 amended: a raising fetch_file, and a transport fault raised
while streaming a 200 response, propagate out of File.download with no
outcome recorded, and such an exception aborts the whole download
phase; only a response with a non-200 status is converted into a
recorded Failed outcome for that one task. -/
theorem C3_amended_resolution_or_transport_error_raises (net : Net) (f : File) (st : FileState) :
    (∀ e, File.file_details net f st = .error e →
      File.download net f st = ([], .error e)) ∧
    (∀ d resp e, File.file_details net f st = .ok d → net.http_get d.url = .ok resp →
      resp.status = 200 → resp.body = .error e →
      File.download net f st = ([], .error e)) ∧
    (∀ d resp, File.file_details net f st = .ok d → net.http_get d.url = .ok resp →
      resp.status ≠ 200 →
      File.download net f st =
        ([Event.outcomeRecorded f.id false],
         .ok { st with download_was_successful := some false })) ∧
    (∀ e rest, File.download net f initFileState = ([], .error e) →
      download_phase net (f :: rest) = ([], .error e)) := by
  refine ⟨?_, ?_, ?_, ?_⟩
  · intro e h1
    unfold File.download
    simp only [h1]
  · intro d resp e h1 h2 h3 h4
    unfold File.download
    simp only [h1, h2, h3, h4]
    simp
  · intro d resp h1 h2 h3
    unfold File.download
    simp only [h1, h2]
    rw [if_neg (by simpa using h3)]
  · intro e rest h1
    rw [download_phase]
    simp only [h1]

/-- Witness for the amended C3: a 404 response records a Failed
outcome. -/
theorem C3_witness :
    File.download net404 fileRoot initFileState =
      ([Event.outcomeRecorded 1 false],
       .ok { initFileState with download_was_successful := some false }) :=
  (C3_amended_resolution_or_transport_error_raises net404 fileRoot initFileState).2.2.1
    ⟨"u"⟩ ⟨404, .ok []⟩ rfl rfl (by decide)

/-- C4: in a run of main that returns normally, the trace splits into
the download outcomes (one per dispatched task), then the file deletes,
then the folder deletes: no remote delete of any kind is issued before
every dispatched download has recorded its outcome, and no folder
delete is issued before the file-deletion sub-phase is over. -/
theorem C4_phase_order (net : Net) (orc : DeleteOracle) (t : RTree)
    (trace : List Event) (states : List (File × FileState)) (t2 : RTree)
    (h : main net orc t = (trace, .ok (states, t2))) :
    ∃ a b c, trace = a ++ b ++ c ∧ a.length = states.length ∧
      (∀ ev ∈ a, ∃ i s, ev = Event.outcomeRecorded i s) ∧
      (∀ ev ∈ b, ∃ i, ev = Event.deleteFileCalled i) ∧
      (∀ ev ∈ c, ∃ i, ev = Event.deleteFolderCalled i) := by
  obtain ⟨files, evs1, evs2, evs3, t1, hg, hd, hdel, hp, htr⟩ :=
    main_ok_decompose net orc t trace states t2 h
  obtain ⟨hmap, hall, hevs⟩ := download_phase_ok_spec net files evs1 states hd
  refine ⟨evs1, evs2, evs3, htr, ?_, ?_, ?_, ?_⟩
  · rw [hevs, List.length_map]
  · intro ev hev
    rw [hevs] at hev
    obtain ⟨p, _, hpev⟩ := List.mem_map.mp hev
    exact ⟨_, _, hpev.symm⟩
  · exact delete_phase_events orc states t evs2 _ hdel
  · exact delete_empty_folders_events orc t1 evs3 _ hp

/-- Concrete fixture: the task states of the full successful run. -/
def statesW : List (File × FileState) := [(fileRoot, stTrue), (⟨"b.pdf", ["docs", "b.pdf"], 2⟩, stTrue)]

/-- Concrete fixture: the store left by the full successful run. -/
def treeW : RTree := .node [] .nil

/-- Witness for C4 at the full successful run over the two-level tree. -/
theorem C4_witness :
    ∃ a b c, (main netOK orcOK tree0).1 = a ++ b ++ c ∧ a.length = statesW.length ∧
      (∀ ev ∈ a, ∃ i s, ev = Event.outcomeRecorded i s) ∧
      (∀ ev ∈ b, ∃ i, ev = Event.deleteFileCalled i) ∧
      (∀ ev ∈ c, ∃ i, ev = Event.deleteFolderCalled i) :=
  C4_phase_order netOK orcOK tree0 (main netOK orcOK tree0).1 statesW treeW rfl

/-- C6: get_all_files returns exactly one FileTask per remote file, in
depth-first files-before-subfolders order, and the relative path of
each task is the starting prefix joined with every ancestor folder name
joined with the file name. -/
theorem C6_lister_spec (t : RTree) (p : List String) (l : List File)
    (h : get_all_files t p = .ok l) : l = t.fileOccs.map (occFile p) :=
  get_all_files_eq_fileOccs t p l h

/-- Witness for C6 on the two-level tree. -/
theorem C6_witness :
    [File.mk "root.txt" ["root.txt"] 1, File.mk "b.pdf" ["docs", "b.pdf"] 2] =
      tree0.fileOccs.map (occFile []) :=
  C6_lister_spec tree0 [] _ rfl

/-- C7: an error raised while listing any folder during traversal
propagates out of get_all_files and main raises at once: the trace is
empty, so no download is attempted and no remote item is deleted. -/
theorem C7_listing_error_aborts (net : Net) (orc : DeleteOracle) (t : RTree) (e : String)
    (h : get_all_files t [] = .error e) :
    main net orc t = ([], .error e) := by
  unfold main
  simp only [h]

/-- Witness for C7 at a tree whose docs subfolder fails to list. -/
theorem C7_witness :
    main netOK orcOK treeBad = ([], .error "listing raised") :=
  C7_listing_error_aborts netOK orcOK treeBad "listing raised" rfl

/-- C8: a fresh File object has no recorded outcome; a download phase
that completes produced exactly one state per task in task order, every
task then carries exactly one recorded outcome, and the phase issued
exactly one outcome event per task (each download attempted once,
never retried). -/
theorem C8_outcome_lifecycle :
    initFileState.download_was_successful = none ∧
    ∀ (net : Net) (files : List File) (evs : List Event) (states : List (File × FileState)),
      download_phase net files = (evs, .ok states) →
      states.map Prod.fst = files ∧
      (∀ p ∈ states, ((Prod.snd p).download_was_successful).isSome) ∧
      evs = states.map (fun p =>
        Event.outcomeRecorded (Prod.fst p).id (((Prod.snd p).download_was_successful).getD false)) := by
  refine ⟨rfl, ?_⟩
  intro net files evs states h
  obtain ⟨h1, h2, h3⟩ := download_phase_ok_spec net files evs states h
  refine ⟨h1, ?_, h3⟩
  intro p hp
  obtain ⟨b, hb⟩ := h2 p hp
  rw [hb]
  rfl

/-- Witness for C8 at a one-file download phase. -/
theorem C8_witness :
    ([(fileRoot, stTrue)].map Prod.fst = [fileRoot]) ∧
      ([Event.outcomeRecorded 1 true] : List Event) =
        [(fileRoot, stTrue)].map (fun p =>
          Event.outcomeRecorded (Prod.fst p).id (((Prod.snd p).download_was_successful).getD false)) := by
  have h := C8_outcome_lifecycle.2 netOK [fileRoot] [Event.outcomeRecorded 1 true]
    [(fileRoot, stTrue)] rfl
  exact ⟨h.1, h.2.2⟩

/-- C9: the names the code reads are SEEDRCC_EMAIL and SEEDRCC_PASSWORD
and nothing else; when such a name is absent the credential passed on
is None, whatever is stored under the documented SEEDR_CC names. -/
theorem C9_env_names (env : String → Option String) :
    (env "SEEDRCC_EMAIL" = none → (read_credentials env).1 = none) ∧
    (env "SEEDRCC_PASSWORD" = none → (read_credentials env).2 = none) ∧
    (∀ env2 : String → Option String,
      env2 "SEEDRCC_EMAIL" = env "SEEDRCC_EMAIL" →
      env2 "SEEDRCC_PASSWORD" = env "SEEDRCC_PASSWORD" →
      read_credentials env2 = read_credentials env) := by
  refine ⟨fun h => h, fun h => h, fun env2 h1 h2 => ?_⟩
  simp [read_credentials, h1, h2]

/-- Concrete fixture: an environment holding only the documented (but
unread) SEEDR_CC names. -/
def envDocumented : String → Option String :=
  fun k => if k == "SEEDR_CC_EMAIL" then some "user"
           else if k == "SEEDR_CC_PASSWORD" then some "pw" else none

/-- Witness for C9: with only the SEEDR_CC names set, both credentials
passed to Login are None. -/
theorem C9_witness :
    (read_credentials envDocumented).1 = none ∧ (read_credentials envDocumented).2 = none :=
  ⟨(C9_env_names envDocumented).1 (by decide), (C9_env_names envDocumented).2.1 (by decide)⟩

/-- C10: nothing ever assigns the _file_details attribute: a fresh File
object has no cached details, File.download never sets them, and so
file_details always performs the api.fetch_file call; in any run of
main that returns normally every task state still has no cached
details. -/
theorem C10_details_never_cached :
    initFileState.fileDetailsCache = none ∧
    (∀ (net : Net) (f : File) (st : FileState) (evs : List Event) (st2 : FileState),
      File.download net f st = (evs, .ok st2) → st2.fileDetailsCache = st.fileDetailsCache) ∧
    (∀ (net : Net) (f : File) (st : FileState),
      st.fileDetailsCache = none → File.file_details net f st = net.fetch_file f.id) ∧
    (∀ (net : Net) (orc : DeleteOracle) (t : RTree) (trace : List Event)
      (states : List (File × FileState)) (t2 : RTree),
      main net orc t = (trace, .ok (states, t2)) →
      ∀ p ∈ states, (Prod.snd p).fileDetailsCache = none) := by
  refine ⟨rfl, ?_, ?_, ?_⟩
  · intro net f st evs st2 h
    obtain ⟨b, hb, _⟩ := download_ok_cases net f st evs st2 h
    rw [hb]
  · intro net f st h
    unfold File.file_details
    rw [h]
  · intro net orc t trace states t2 h p hp
    obtain ⟨files, evs1, evs2, evs3, t1, hg, hd, hdel, hp2, htr⟩ :=
      main_ok_decompose net orc t trace states t2 h
    obtain ⟨_, hall, _⟩ := download_phase_ok_spec net files evs1 states hd
    obtain ⟨b, hb⟩ := hall p hp
    rw [hb]
    rfl

/-- Witness for C10: a fresh File object fetches details directly. -/
theorem C10_witness :
    File.file_details netOK fileRoot initFileState = netOK.fetch_file 1 :=
  C10_details_never_cached.2.2.1 netOK fileRoot initFileState rfl

mutual
/-- All folder ids occurring anywhere in a tree. -/
def RTree.folderIds : RTree → List Int
  | .bad _ => []
  | .node _ sub => sub.folderIds
/-- All folder ids occurring anywhere in a forest. -/
def RForest.folderIds : RForest → List Int
  | .nil => []
  | .cons e t rest => e.id :: (t.folderIds ++ rest.folderIds)
end

/-- The ids of the top-level entries of a forest. -/
def RForest.entryIds (f : RForest) : List Int := f.entries.map FolderEntry.id

/-- Top-level entry ids form a subsequence of all folder ids. -/
theorem entryIds_sublist_folderIds : ∀ f : RForest, f.entryIds.Sublist f.folderIds
  | .nil => by simp [RForest.entryIds, RForest.entries, RForest.folderIds]
  | .cons e t rest => by
      have ih := entryIds_sublist_folderIds rest
      simp only [RForest.entryIds, RForest.entries, RForest.folderIds, List.map_cons]
      exact List.Sublist.cons₂ _ (ih.trans (List.sublist_append_right _ _))

mutual
/-- Deleting a folder id that occurs nowhere in a tree changes nothing. -/
theorem deleteFolder_id_not_mem_tree (A : Int) :
    ∀ t : RTree, A ∉ t.folderIds → t.deleteFolder A = t
  | .bad e, _ => rfl
  | .node fs sub, h => by
      rw [RTree.deleteFolder, deleteFolder_id_not_mem_forest A sub h]
/-- Deleting a folder id that occurs nowhere in a forest changes
nothing. -/
theorem deleteFolder_id_not_mem_forest (A : Int) :
    ∀ f : RForest, A ∉ f.folderIds → f.deleteFolder A = f
  | .nil, _ => rfl
  | .cons e t rest, h => by
      rw [RForest.folderIds] at h
      simp only [List.mem_cons, List.mem_append] at h
      push_neg at h
      obtain ⟨h1, h2, h3⟩ := h
      rw [RForest.deleteFolder, if_neg (by simpa using Ne.symm h1),
        deleteFolder_id_not_mem_tree A t h2, deleteFolder_id_not_mem_forest A rest h3]
end

mutual
/-- findFolder misses any id that occurs nowhere in a tree. -/
theorem findFolder_not_mem_tree (B : Int) :
    ∀ t : RTree, B ∉ t.folderIds → t.findFolder B = none
  | .bad e, _ => rfl
  | .node fs sub, h => by
      rw [RTree.findFolder, findFolder_not_mem_forest B sub h]
/-- findFolder misses any id that occurs nowhere in a forest. -/
theorem findFolder_not_mem_forest (B : Int) :
    ∀ f : RForest, B ∉ f.folderIds → f.findFolder B = none
  | .nil, _ => rfl
  | .cons e t rest, h => by
      rw [RForest.folderIds] at h
      simp only [List.mem_cons, List.mem_append] at h
      push_neg at h
      obtain ⟨h1, h2, h3⟩ := h
      rw [RForest.findFolder, if_neg (by simpa using Ne.symm h1),
        findFolder_not_mem_tree B t h2, findFolder_not_mem_forest B rest h3]
end

mutual
/-- Folder ids left after a folder deletion form a subsequence of the
original folder ids of a tree. -/
theorem deleteFolder_folderIds_sublist_tree (A : Int) :
    ∀ t : RTree, (t.deleteFolder A).folderIds.Sublist t.folderIds
  | .bad e => by simp [RTree.deleteFolder]
  | .node fs sub => by
      simpa [RTree.deleteFolder, RTree.folderIds] using
        deleteFolder_folderIds_sublist_forest A sub
/-- Folder ids left after a folder deletion form a subsequence of the
original folder ids of a forest. -/
theorem deleteFolder_folderIds_sublist_forest (A : Int) :
    ∀ f : RForest, (f.deleteFolder A).folderIds.Sublist f.folderIds
  | .nil => by simp [RForest.deleteFolder]
  | .cons e t rest => by
      rw [RForest.deleteFolder]
      by_cases hc : (e.id == A) = true
      · rw [if_pos hc]
        refine (deleteFolder_folderIds_sublist_forest A rest).trans ?_
        rw [RForest.folderIds]
        exact ((List.sublist_append_right _ _).trans (List.sublist_cons_self _ _))
      · rw [if_neg hc]
        rw [RForest.folderIds, RForest.folderIds]
        exact List.Sublist.cons₂ _
          ((deleteFolder_folderIds_sublist_tree A t).append
            (deleteFolder_folderIds_sublist_forest A rest))
end

/-- A surviving top-level entry id stays top-level after deleting
another folder id. -/
theorem entryIds_deleteFolder_mem (A B : Int) (hBA : B ≠ A) :
    ∀ f : RForest, B ∈ f.entryIds → B ∈ (f.deleteFolder A).entryIds
  | .nil, h => by simp [RForest.entryIds, RForest.entries] at h
  | .cons e t rest, h => by
      rw [RForest.entryIds, RForest.entries, List.map_cons, List.mem_cons] at h
      rw [RForest.deleteFolder]
      by_cases hc : (e.id == A) = true
      · have heA : e.id = A := by simpa using hc
        rcases h with h | h
        · exact absurd (h.trans heA) hBA
        · rw [if_pos hc]
          exact entryIds_deleteFolder_mem A B hBA rest h
      · rw [if_neg hc]
        rw [RForest.entryIds, RForest.entries, List.map_cons, List.mem_cons]
        rcases h with h | h
        · exact Or.inl h
        · exact Or.inr (entryIds_deleteFolder_mem A B hBA rest h)

/-- Deleting one top-level folder does not change where findFolder
locates another top-level folder, when folder ids are globally unique. -/
theorem findFolder_deleteFolder (A B : Int) (hBA : B ≠ A) :
    ∀ f : RForest, f.folderIds.Nodup → A ∈ f.entryIds → B ∈ f.entryIds →
      (f.deleteFolder A).findFolder B = f.findFolder B
  | .nil, _, hA, _ => by simp [RForest.entryIds, RForest.entries] at hA
  | .cons e t rest, hN, hA, hB => by
      rw [RForest.folderIds, List.nodup_cons, List.nodup_append] at hN
      obtain ⟨he, hNt, hNrest, hdisj⟩ := hN
      have hAmem : A = e.id ∨ A ∈ rest.entryIds := by
        simpa [RForest.entryIds, RForest.entries] using hA
      have hBmem : B = e.id ∨ B ∈ rest.entryIds := by
        simpa [RForest.entryIds, RForest.entries] using hB
      have hsub := entryIds_sublist_folderIds rest
      rw [RForest.deleteFolder]
      by_cases hc : (e.id == A) = true
      · have heA : e.id = A := by simpa using hc
        rcases hBmem with hBe | hBrest
        · exact absurd (hBe.trans heA) hBA
        · have hBfold : B ∈ rest.folderIds := hsub.subset hBrest
          have hBnt : B ∉ t.folderIds := fun hmem => hdisj hmem hBfold
          have hrestA : A ∉ rest.folderIds := fun hmem =>
            he (List.mem_append.mpr (Or.inr (by rw [heA]; exact hmem)))
          have hBne : ¬ (e.id == B) = true := by
            simp only [beq_iff_eq, heA]
            exact fun hh => hBA hh.symm
          rw [if_pos hc, deleteFolder_id_not_mem_forest A rest hrestA]
          rw [RForest.findFolder, if_neg hBne,
            findFolder_not_mem_tree B t hBnt]
      · have heA : e.id ≠ A := by simpa using hc
        rcases hAmem with hAe | hArest
        · exact absurd hAe.symm heA
        · have hAfold : A ∈ rest.folderIds := hsub.subset hArest
          have hAnt : A ∉ t.folderIds := fun hmem => hdisj hmem hAfold
          rw [if_neg hc, deleteFolder_id_not_mem_tree A t hAnt]
          by_cases hB2 : (e.id == B) = true
          · simp only [RForest.findFolder, if_pos hB2]
          · have hBrest : B ∈ rest.entryIds := by
              rcases hBmem with hBe | hBrest
              · exact absurd (by simp [hBe]) hB2
              · exact hBrest
            have hBfold : B ∈ rest.folderIds := hsub.subset hBrest
            have hBnt : B ∉ t.folderIds := fun hmem => hdisj hmem hBfold
            simp only [RForest.findFolder, if_neg hB2,
              findFolder_not_mem_tree B t hBnt]
            exact findFolder_deleteFolder A B hBA rest hNrest hArest hBrest

/-- Emptiness re-checks of a surviving top-level folder are unchanged
by the deletion of a sibling top-level folder (unique ids). -/
theorem is_folder_empty_deleteFolder (fs : List FileEntry) (sub : RForest) (A B : Int)
    (hBA : B ≠ A) (hN : sub.folderIds.Nodup) (hA : A ∈ sub.entryIds) (hB : B ∈ sub.entryIds) :
    is_folder_empty (RTree.node fs (sub.deleteFolder A)) B =
      is_folder_empty (RTree.node fs sub) B := by
  unfold is_folder_empty list_contents_id
  simp only [RTree.findFolder]
  rw [findFolder_deleteFolder A B hBA sub hN hA hB]

/-- Boolean form of a successful emptiness check. -/
def emptyB (t : RTree) (fid : Int) : Bool :=
  match is_folder_empty t fid with
  | .ok true => true
  | _ => false

/-- emptyB is true exactly when the fresh listing succeeds and reports
zero files and zero subfolders. -/
theorem emptyB_eq_true (t : RTree) (fid : Int) :
    emptyB t fid = true ↔ is_folder_empty t fid = .ok true := by
  unfold emptyB
  cases h : is_folder_empty t fid with
  | error e => simp
  | ok b => cases b <;> simp

/-- A prune loop that returns normally deletes exactly the folders of
its worklist that are empty at prune-start (unique folder ids make the
sequential deletions independent), in worklist order. -/
theorem prune_loop_ok_trace (orc : DeleteOracle) :
    ∀ (entries : List FolderEntry) (fs : List FileEntry) (sub : RForest)
      (trace : List Event) (t2 : RTree),
      sub.folderIds.Nodup →
      (entries.map FolderEntry.id).Nodup →
      (∀ fe ∈ entries, fe.id ∈ sub.entryIds) →
      prune_loop orc entries (RTree.node fs sub) = (trace, .ok t2) →
      trace = (entries.filter (fun fe => emptyB (RTree.node fs sub) fe.id)).map
        (fun fe => Event.deleteFolderCalled fe.id)
  | [], fs, sub, trace, t2, _, _, _, h => by
      rw [prune_loop] at h
      cases h
      simp
  | fe :: rest, fs, sub, trace, t2, hN, hNe, hmem, h => by
      rw [prune_loop] at h
      cases hemp : is_folder_empty (RTree.node fs sub) fe.id with
      | error e => simp [hemp] at h
      | ok b =>
        simp only [hemp] at h
        cases b with
        | false =>
          have hNe2 : (rest.map FolderEntry.id).Nodup := (List.nodup_cons.mp hNe).2
          have ih := prune_loop_ok_trace orc rest fs sub trace t2 hN hNe2
            (fun x hx => hmem x (List.mem_cons_of_mem _ hx)) h
          rw [ih]
          have hfe : emptyB (RTree.node fs sub) fe.id = false := by
            unfold emptyB
            rw [hemp]
          simp [List.filter_cons, hfe]
        | true =>
          simp only [delete_item_folder] at h
          cases horc : orc.folderErr fe.id with
          | some e => simp [horc] at h
          | none =>
            simp only [horc] at h
            cases hrest : prune_loop orc rest ((RTree.node fs sub).deleteFolder fe.id) with
            | mk evs2 r2 =>
              simp only [hrest] at h
              cases r2 with
              | error e => simp at h
              | ok t3 =>
                cases h
                have hdel : (RTree.node fs sub).deleteFolder fe.id =
                    RTree.node fs (sub.deleteFolder fe.id) := rfl
                rw [hdel] at hrest
                have hNe2 : (rest.map FolderEntry.id).Nodup := (List.nodup_cons.mp hNe).2
                have hfeNotRest : fe.id ∉ rest.map FolderEntry.id := (List.nodup_cons.mp hNe).1
                have hN2 : (sub.deleteFolder fe.id).folderIds.Nodup :=
                  hN.sublist (deleteFolder_folderIds_sublist_forest fe.id sub)
                have hxne : ∀ x ∈ rest, x.id ≠ fe.id := by
                  intro x hx hcontra
                  exact hfeNotRest (hcontra ▸ List.mem_map_of_mem _ hx)
                have hmem2 : ∀ x ∈ rest, x.id ∈ (sub.deleteFolder fe.id).entryIds := by
                  intro x hx
                  exact entryIds_deleteFolder_mem fe.id x.id (hxne x hx) sub
                    (hmem x (List.mem_cons_of_mem _ hx))
                have ih := prune_loop_ok_trace orc rest fs (sub.deleteFolder fe.id)
                  evs2 _ hN2 hNe2 hmem2 hrest
                have hcongr : rest.filter
                      (fun x => emptyB (RTree.node fs (sub.deleteFolder fe.id)) x.id) =
                    rest.filter (fun x => emptyB (RTree.node fs sub) x.id) := by
                  apply List.filter_congr
                  intro x hx
                  have heq := is_folder_empty_deleteFolder fs sub fe.id x.id (hxne x hx) hN
                    (hmem fe (List.mem_cons_self fe rest))
                    (hmem x (List.mem_cons_of_mem _ hx))
                  unfold emptyB
                  rw [heq]
                have hfe : emptyB (RTree.node fs sub) fe.id = true := by
                  unfold emptyB
                  rw [hemp]
                rw [ih, hcongr]
                simp [List.filter_cons, hfe]

/-- C5: delete_empty_folders on the prune-time store (taken after the
file-deletion sub-phase) deletes a folder iff it is a direct child of
root and its own fresh listing reports zero files and zero subfolders;
folders nested deeper than one level are never pruned (the worklist is
only the root listing), assuming globally unique folder ids. -/
theorem C5_folder_pruned_iff (orc : DeleteOracle) (fs : List FileEntry) (sub : RForest)
    (trace : List Event) (t2 : RTree) (fid : Int)
    (hN : sub.folderIds.Nodup)
    (h : delete_empty_folders orc (RTree.node fs sub) = (trace, .ok t2)) :
    Event.deleteFolderCalled fid ∈ trace ↔
      ∃ fe ∈ sub.entries, fe.id = fid ∧
        is_folder_empty (RTree.node fs sub) fe.id = .ok true := by
  unfold delete_empty_folders at h
  simp only [RTree.listingOf] at h
  have hNe : (sub.entries.map FolderEntry.id).Nodup :=
    hN.sublist (entryIds_sublist_folderIds sub)
  have htrace := prune_loop_ok_trace orc sub.entries fs sub trace t2 hN hNe
    (fun x hx => List.mem_map_of_mem _ hx) h
  rw [htrace]
  constructor
  · intro hmem
    obtain ⟨fe, hfe, hev⟩ := List.mem_map.mp hmem
    obtain ⟨hfe1, hfe2⟩ := List.mem_filter.mp hfe
    have hid : fe.id = fid := by
      simpa using hev
    exact ⟨fe, hfe1, hid, (emptyB_eq_true _ _).mp hfe2⟩
  · rintro ⟨fe, hfe, rfl, hempty⟩
    exact List.mem_map.mpr
      ⟨fe, List.mem_filter.mpr ⟨hfe, (emptyB_eq_true _ _).mpr hempty⟩, rfl⟩

/-- Concrete fixture: the forest holding only the emptied docs folder. -/
def subPruneW : RForest := .cons docsEntry (.node [] .nil) .nil

/-- Witness for C5: the emptied docs folder, a direct child of root, is
pruned. -/
theorem C5_witness :
    Event.deleteFolderCalled 10 ∈ ([Event.deleteFolderCalled 10] : List Event) ↔
      ∃ fe ∈ subPruneW.entries, fe.id = 10 ∧
        is_folder_empty (RTree.node [] subPruneW) fe.id = .ok true :=
  C5_folder_pruned_iff orcOK [] subPruneW [Event.deleteFolderCalled 10] (.node [] .nil) 10
    (by decide) rfl

end SeedrSync
